import Mathlib

/-!
Verification development for the go-tpm-tools attestation core.

We give a shallow embedding of the repository code:
* `client/hash.go`: the chunked TPM hash/event sequencing engine,
* the event-log parsing helpers (`UntrustedParseEventType`,
  `ParseTaggedEventData`),
* the attestation verifier (`VerifyAttestation` and its helpers
  `pubKeysEqual`, `checkAkTrusted`, `validateAkCert`,
  `checkHashAlgSupported`, `supportedQuotes`).

Bytes are modelled as `List Nat`; machine integers as `Nat` (all the
arithmetic here stays far below 2^32, and Go uint32 comparisons with 0
are modelled by the corresponding always-false `Nat` comparisons).
External dependencies (tpm2, x509, protobuf) are modelled by abstract
parameters or, where the claims need their documented behavior, by
definitions that follow that documented behavior.
-/

namespace GoTpmTools

/-! ## Hash/sequencing engine (client/hash.go) -/

/-- Constant from client/hash.go: the defensive upper bound on a
length-prefixed buffer (1 MiB). -/
def maxBytesBufferSize : Nat := 1024 * 1024

/-- Constant from client/hash.go: the chunk ceiling pulled per
SequenceUpdate call. -/
def maxDigestBufferSize : Nat := 1024

/-- The sequence of chunks pulled from the data buffer by the do-while
loop in HashWithSequencing and EventWithSequencing: each iteration pulls
`dataBuffer.Next(maxDigestBufferSize)`, and the loop continues while the
buffer is non-empty.  The loop body always runs at least once. -/
def updateChunks (buf : List Nat) : List (List Nat) :=
  if h : (buf.drop maxDigestBufferSize).isEmpty then
    [buf.take maxDigestBufferSize]
  else
    buf.take maxDigestBufferSize :: updateChunks (buf.drop maxDigestBufferSize)
termination_by buf.length
decreasing_by
  simp only [List.isEmpty_iff, maxDigestBufferSize] at h ⊢
  have hlen : 1024 < buf.length := by
    by_contra hle
    push_neg at hle
    exact h (List.drop_eq_nil_of_le (by omega))
  simp only [List.length_drop]
  omega

/-- Model of tpm2.HashSequenceStart: the fresh sequence has absorbed no
bytes. -/
def hashSequenceStart : List Nat := []

/-- Model of tpm2.SequenceUpdate: the sequence absorbs the chunk. -/
def sequenceUpdate (s chunk : List Nat) : List Nat := s ++ chunk

/-- Model of tpm2.SequenceComplete: the final digest is the hash `H` of
everything absorbed (the TPM sequence behaves as an incremental hash). -/
def sequenceComplete (H : List Nat → List Nat) (s : List Nat) : List Nat := H s

/-- HashWithSequencing from client/hash.go, with the TPM sequence
modelled as an incremental hash for the resolved algorithm `H`.
Returns the final digest together with the trace of chunks fed to
SequenceUpdate (one trace entry per SequenceUpdate call). -/
def HashWithSequencing (H : List Nat → List Nat) (sequenceAuthorization : String)
    (data : List Nat) : List Nat × List (List Nat) :=
  let chunks := updateChunks data
  let _ := sequenceAuthorization
  (sequenceComplete H (chunks.foldl sequenceUpdate hashSequenceStart), chunks)

/-- EventWithSequencing from client/hash.go: same update loop, but
tpm2.EventSequenceComplete returns one hash value per PCR bank.  Each
bank is modelled as an incremental hash function.  Returns the per-bank
digests together with the trace of chunks fed to SequenceUpdate. -/
def EventWithSequencing (banks : List (List Nat → List Nat))
    (sequenceAuthorization pcrAuthorization : String) (pcrHandle : Nat)
    (data : List Nat) : List (List Nat) × List (List Nat) :=
  let chunks := updateChunks data
  let _ := (sequenceAuthorization, pcrAuthorization, pcrHandle)
  (banks.map (fun h => h (chunks.foldl sequenceUpdate hashSequenceStart)), chunks)

/-- Model of the OS-library incremental hash object: `h.New()` starts
with no bytes absorbed. -/
def hashNew : List Nat := []

/-- Model of `alg.Write(data)`: the hash object absorbs the bytes. -/
def hashWrite (s data : List Nat) : List Nat := s ++ data

/-- Model of `alg.Sum(nil)`: the digest of everything absorbed. -/
def hashSum (H : List Nat → List Nat) (s : List Nat) : List Nat := H s

/-- Model of the one-shot tpm2.Hash command: the TPM computes the same
hash function over the whole buffer. -/
def tpm2Hash (H : List Nat → List Nat) (data : List Nat) : List Nat := H data

/-- Hash from client/hash.go.  `H` is the hash function resolved by the
HashResolver; `hasDevice` and `hasHierarchyHandle` model the nil checks
on the io.ReadWriter and the tpmutil.Handle.  A non-nil
sequenceAuthorization forces the sequencing path; otherwise a device
with a handle uses the one-shot TPM hash, and the remaining path is the
local OS-library hash (New, Write, Sum). -/
def Hash (H : List Nat → List Nat) (hasDevice hasHierarchyHandle : Bool)
    (sequenceAuthorization : Option String) (data : List Nat) : List Nat :=
  match sequenceAuthorization with
  | some auth => (HashWithSequencing H auth data).1
  | none =>
    if hasDevice && hasHierarchyHandle then
      tpm2Hash H data
    else
      hashSum H (hashWrite hashNew data)

/-! ## Event log parsing (package wel) -/

/-- The eventTypeNames table: the known event-type values and their
names (BIOS events 0x0 to 0x12 and the EFI events). -/
def eventTypeNames : List (Nat × String) :=
  [(0x00000000, "Preboot Cert"),
   (0x00000001, "POST Code"),
   (0x00000002, "Unused"),
   (0x00000003, "No Action"),
   (0x00000004, "Separator"),
   (0x00000005, "Action"),
   (0x00000006, "Event Tag"),
   (0x00000007, "S-CRTM Contents"),
   (0x00000008, "S-CRTM Version"),
   (0x00000009, "CPU Microcode"),
   (0x0000000A, "Platform Config Flags"),
   (0x0000000B, "Table of Devices"),
   (0x0000000C, "Compact Hash"),
   (0x0000000D, "IPL"),
   (0x0000000E, "IPL Partition Data"),
   (0x0000000F, "Non-Host Code"),
   (0x00000010, "Non-HostConfig"),
   (0x00000011, "Non-Host Info"),
   (0x00000012, "Omit Boot Device Events"),
   (0x80000000, "EFI Event Base"),
   (0x80000001, "EFI Variable Driver Config"),
   (0x80000002, "EFI Variable Boot"),
   (0x80000003, "EFI Boot Services Application"),
   (0x80000004, "EFI Boot Services Driver"),
   (0x80000005, "EFI Runtime Services Driver"),
   (0x80000006, "EFI GPT Event"),
   (0x80000007, "EFI Action"),
   (0x80000008, "EFI Platform Firmware Blob"),
   (0x80000009, "EFI Handoff Tables"),
   (0x80000010, "EFI H-CRTM Event"),
   (0x800000e0, "EFI Variable Authority")]

/-- Errors of UntrustedParseEventType: the range-check error and the
unknown-value error, each carrying the offending value. -/
inductive EventTypeErr where
  | outOfRange (et : Nat)
  | unknown (et : Nat)
deriving DecidableEq, Repr

/-- UntrustedParseEventType, transcribed with the range condition
exactly as written in the source:
`(et < 0x80000000 && et > 0x800000FF) || (et < 0x0 && et > 0x12)`
(the Go comparisons on a uint32 correspond verbatim to these Nat
comparisons). -/
def UntrustedParseEventType (et : Nat) : Except EventTypeErr Nat :=
  if (et < 0x80000000 ∧ 0x800000FF < et) ∨ (et < 0x0 ∧ 0x12 < et) then
    .error (.outOfRange et)
  else if (eventTypeNames.lookup et).isSome then
    .ok et
  else
    .error (.unknown et)

/-- Errors of ParseTaggedEventData. -/
inductive TaggedParseErr where
  | headerTruncated
  | oversized (dataLen bufLen : Nat)
  | dataTruncated
deriving DecidableEq, Repr

/-- TaggedEventData: the decoded TCG_PCClientTaggedEventStruct. -/
structure TaggedEventData where
  id : Nat
  data : List Nat
deriving DecidableEq, Repr

/-- Reads a little-endian uint32 from the front of the byte stream
(binary.Read with binary.LittleEndian), returning the value and the
rest of the stream, or failing when fewer than four bytes remain. -/
def readU32LE : List Nat → Option (Nat × List Nat)
  | b0 :: b1 :: b2 :: b3 :: rest =>
    some (b0 + 256 * b1 + 65536 * b2 + 16777216 * b3, rest)
  | _ => none

/-- ParseTaggedEventData, instrumented with the number of bytes
allocated for the Data field (the second component): the 8-byte header
is read, DataLen is checked against len(d) (the whole input, not the
remaining bytes), and only then is the Data buffer of DataLen bytes
allocated and filled by a second binary.Read, which fails when fewer
than DataLen bytes remain after the header. -/
def parseTaggedEventDataAlloc (d : List Nat) :
    Except TaggedParseErr TaggedEventData × Nat :=
  match readU32LE d with
  | none => (.error .headerTruncated, 0)
  | some (id, r1) =>
    match readU32LE r1 with
    | none => (.error .headerTruncated, 0)
    | some (dataLen, r2) =>
      if d.length < dataLen then
        (.error (.oversized dataLen d.length), 0)
      else if r2.length < dataLen then
        (.error .dataTruncated, dataLen)
      else
        (.ok { id := id, data := r2.take dataLen }, dataLen)

/-- ParseTaggedEventData: the parse result alone. -/
def ParseTaggedEventData (d : List Nat) : Except TaggedParseErr TaggedEventData :=
  (parseTaggedEventDataAlloc d).1

/-! ## Attestation verifier (package server) -/

/-- tpm2.Algorithm identifiers (TPM_ALG constants). -/
abbrev Algorithm := Nat

def AlgSHA1 : Algorithm := 0x0004

def AlgSHA256 : Algorithm := 0x000B

def AlgSHA384 : Algorithm := 0x000C

def AlgSHA512 : Algorithm := 0x000D

/-- The hash algorithms the verifier supports, in their preferred order
of use. -/
def supportedHashAlgs : List Algorithm := [AlgSHA512, AlgSHA384, AlgSHA256, AlgSHA1]

/-- crypto.PublicKey: an RSA key (modulus, exponent), an ECDSA key
(curve identifier and coordinates), or a key of any other dynamic type. -/
inductive PublicKey where
  | rsa (n e : Nat)
  | ecdsa (curve x y : Nat)
  | other (id : Nat)
deriving DecidableEq, Repr

/-- pubKeysEqual: switches on the dynamic type of the first key and
uses the type-specific Equal method (rsa.PublicKey.Equal compares
modulus and exponent against another RSA key; ecdsa.PublicKey.Equal
compares curve and coordinates against another ECDSA key); any other
type falls to the default branch returning false, and Equal returns
false when the second key has a different dynamic type. -/
def pubKeysEqual : PublicKey → PublicKey → Bool
  | .rsa n e, .rsa n2 e2 => n == n2 && e == e2
  | .ecdsa c x y, .ecdsa c2 x2 y2 => c == c2 && x == x2 && y == y2
  | _, _ => false

/-- tpmpb.PCRs: the hash algorithm of the bank plus the PCR values. -/
structure PCRs where
  hash : Algorithm
  pcrs : List (Nat × List Nat)
deriving DecidableEq, Repr

/-- tpmpb.Quote: PCR set, the raw quoted blob and its signature. -/
structure Quote where
  pcrs : PCRs
  quote : List Nat
  rawSig : List Nat
deriving DecidableEq, Repr

/-- Modelled from the spec: the pb.MachineState protobuf message (its
definition lives under proto/attest, which is not part of src/).  Per
the spec it is a collection of verified facts; we model the singular
facts as opaque optional values (platform and secure-boot state), a
proto3 scalar field with zero default (the hash algorithm), and a
repeated field of raw events. -/
structure MachineState where
  platform : Option Nat
  secureBoot : Option Nat
  hash : Nat
  rawEvents : List Nat
deriving DecidableEq, Repr

/-- proto.Merge(dst, src) on MachineState, following the documented
semantics of google.golang.org/protobuf/proto.Merge: populated singular
fields in src overwrite dst, a proto3 scalar is copied when non-zero in
src, and repeated fields of src are appended to those of dst. -/
def protoMerge (dst src : MachineState) : MachineState :=
  { platform := match src.platform with
      | some p => some p
      | none => dst.platform
    secureBoot := match src.secureBoot with
      | some s => some s
      | none => dst.secureBoot
    hash := if src.hash == 0 then dst.hash else src.hash
    rawEvents := dst.rawEvents ++ src.rawEvents }

/-- pb.Attestation: the verifier input. -/
structure Attestation where
  akPub : List Nat
  akCert : List Nat
  quotes : List Quote
  eventLog : List Nat
  canonicalEventLog : List Nat
deriving DecidableEq, Repr

/-- An x509 certificate pool (opaque). -/
abbrev CertPool := List Nat

/-- VerifyOpts from the source: nonce, trusted AKs, the SHA-1
allowance, and the two certificate pools (nilable in Go, hence
Option). -/
structure VerifyOpts where
  nonce : List Nat
  trustedAKs : List PublicKey
  allowSHA1 : Bool
  trustedRootCerts : Option CertPool
  intermediateCerts : Option CertPool

/-- A decoded tpm2.Public area (opaque). -/
abbrev PubArea := Nat

/-- A parsed x509 certificate (opaque). -/
abbrev Cert := Nat

/-- The external dependencies of VerifyAttestation (tpm2 decoding, the
internal quote-verification helper, x509 parsing and chain
verification, and the two event-log parse-and-replay routines from the
same package but outside the verifier file).  Each is an abstract
fallible function. -/
structure Ext where
  decodePublic : List Nat → Except String PubArea
  pubAreaKey : PubArea → Except String PublicKey
  getSigningHashAlg : PubArea → Except String Algorithm
  verifyQuote : Quote → PublicKey → List Nat → Except String Unit
  parseCert : List Nat → Except String Cert
  certVerify : Cert → Option CertPool → Option CertPool → Except String Unit
  parsePCClientEventLog : List Nat → PCRs → Except String MachineState
  parseCanonicalEventLog : List Nat → PCRs → Except String MachineState

/-- checkAkTrusted: fails when no trusted AKs are configured, succeeds
when some trusted key compares equal to the AK under pubKeysEqual. -/
def checkAkTrusted (ak : PublicKey) (opts : VerifyOpts) : Except String Unit :=
  if opts.trustedAKs.isEmpty then
    .error "no mechanism for AK verification provided"
  else if opts.trustedAKs.any (fun trusted => pubKeysEqual ak trusted) then
    .ok ()
  else
    .error "AK public key is not trusted"

/-- validateAkCert: rejects an empty certificate blob, then parses the
certificate and chain-verifies it against the root and intermediate
pools. -/
def validateAkCert (ext : Ext) (akCertBytes : List Nat)
    (intermediates roots : Option CertPool) : Except String Unit :=
  if akCertBytes.isEmpty then
    .error "AKCert is empty"
  else
    match ext.parseCert akCertBytes with
    | .error e => .error ("failed to parse AKCert: " ++ e)
    | .ok akCert =>
      match ext.certVerify akCert roots intermediates with
      | .error e => .error ("failed to verify AKCert against trusted roots: " ++ e)
      | .ok _ => .ok ()

/-- The two outcomes of checkHashAlgSupported failing. -/
inductive HashAlgErr where
  | sha1NotAllowed
  | unsupported (alg : Algorithm)
deriving DecidableEq, Repr

/-- checkHashAlgSupported: SHA-1 is rejected first when not allowed by
the options, then membership in supportedHashAlgs is required. -/
def checkHashAlgSupported (hash : Algorithm) (opts : VerifyOpts) :
    Except HashAlgErr Unit :=
  if hash == AlgSHA1 && !opts.allowSHA1 then
    .error .sha1NotAllowed
  else if supportedHashAlgs.contains hash then
    .ok ()
  else
    .error (.unsupported hash)

/-- The inner loop of supportedQuotes: scan the quotes and take the
first whose PCR bank uses the given algorithm (the loop breaks at the
first match). -/
def firstQuoteWithAlg (quotes : List Quote) (alg : Algorithm) : Option Quote :=
  quotes.find? (fun quote => quote.pcrs.hash == alg)

/-- supportedQuotes: for each supported algorithm in preference order,
append the first quote bearing that algorithm. -/
def supportedQuotes (quotes : List Quote) : List Quote :=
  supportedHashAlgs.filterMap (firstQuoteWithAlg quotes)

/-- The terminal errors of VerifyAttestation.  Each constructor is one
fmt.Errorf wrapping site of the source; the carried string is the
wrapped sub-error.  untrustedAK carries the validateAkCert error, which
the source combines with the fixed text reporting that the AK public
key is also untrusted. -/
inductive VError where
  | decodePublicFailed (msg : String)
  | getKeyFailed (msg : String)
  | untrustedAK (certErr : String)
  | badAkPubArea (msg : String)
  | akSigningHashAlg (e : HashAlgErr)
  | quoteVerifyFailed (msg : String)
  | pcclientLogFailed (msg : String)
  | canonicalLogFailed (msg : String)
  | pcrHashAlg (e : HashAlgErr)
  | noSupportedQuote
deriving DecidableEq, Repr

/-- The body of the per-quote loop of VerifyAttestation for one
candidate quote: verify the quote signature, parse and replay the
PCClient log, parse and replay the canonical log, merge the legacy
state into the canonical state with proto.Merge, and only then check
the PCR hash algorithm; each failure is the error that the loop records
as lastErr before continuing. -/
def attemptQuote (ext : Ext) (att : Attestation) (opts : VerifyOpts)
    (akKey : PublicKey) (quote : Quote) : Except VError MachineState :=
  match ext.verifyQuote quote akKey opts.nonce with
  | .error e => .error (.quoteVerifyFailed e)
  | .ok _ =>
    match ext.parsePCClientEventLog att.eventLog quote.pcrs with
    | .error e => .error (.pcclientLogFailed e)
    | .ok state =>
      match ext.parseCanonicalEventLog att.canonicalEventLog quote.pcrs with
      | .error e => .error (.canonicalLogFailed e)
      | .ok celState =>
        let merged := protoMerge celState state
        match checkHashAlgSupported quote.pcrs.hash opts with
        | .error e => .error (.pcrHashAlg e)
        | .ok _ => .ok merged

/-- The per-quote loop of VerifyAttestation: the first fully successful
quote wins; a failed attempt records its error as lastErr and the next
candidate is tried; after the loop, the last recorded error is
returned, or the generic no-supported-quote error when no candidate was
attempted at all. -/
def quoteLoop (ext : Ext) (att : Attestation) (opts : VerifyOpts)
    (akKey : PublicKey) : List Quote → Option VError → Except VError MachineState
  | [], none => .error .noSupportedQuote
  | [], some e => .error e
  | quote :: rest, _ =>
    match attemptQuote ext att opts akKey quote with
    | .ok state => .ok state
    | .error e => quoteLoop ext att opts akKey rest (some e)

/-- The tail of VerifyAttestation after AK trust is established: check
the signing hash algorithm of the AK public area, then run the
per-quote loop over the supported quotes. -/
def verifyAttestationPost (ext : Ext) (att : Attestation) (opts : VerifyOpts)
    (akPubArea : PubArea) (akPubKey : PublicKey) : Except VError MachineState :=
  match ext.getSigningHashAlg akPubArea with
  | .error e => .error (.badAkPubArea e)
  | .ok signHashAlg =>
    match checkHashAlgSupported signHashAlg opts with
    | .error e => .error (.akSigningHashAlg e)
    | .ok _ => quoteLoop ext att opts akPubKey (supportedQuotes att.quotes) none

/-- VerifyAttestation: decode the AK public area and key, resolve AK
trust (direct trust first, certificate chain as fallback, both failures
reported together as the untrustedAK error), then verify the signing
algorithm and run the quote loop. -/
def verifyAttestation (ext : Ext) (att : Attestation) (opts : VerifyOpts) :
    Except VError MachineState :=
  match ext.decodePublic att.akPub with
  | .error e => .error (.decodePublicFailed e)
  | .ok akPubArea =>
    match ext.pubAreaKey akPubArea with
    | .error e => .error (.getKeyFailed e)
    | .ok akPubKey =>
      match checkAkTrusted akPubKey opts with
      | .ok _ => verifyAttestationPost ext att opts akPubArea akPubKey
      | .error _ =>
        match validateAkCert ext att.akCert opts.intermediateCerts opts.trustedRootCerts with
        | .ok _ => verifyAttestationPost ext att opts akPubArea akPubKey
        | .error certErr => .error (.untrustedAK certErr)

/-- Modelled from the spec: the candidate-quote sequence as claim C2
describes it — the quotes with a supported PCR hash algorithm,
reordered by the fixed preference, excluding SHA-1 quotes when
AllowSHA1 is false. -/
def claimedCandidates (allowSHA1 : Bool) (quotes : List Quote) : List Quote :=
  ((supportedHashAlgs.map
      (fun alg => quotes.filter (fun quote => quote.pcrs.hash == alg))).flatten).filter
    (fun quote => !(quote.pcrs.hash == AlgSHA1) || allowSHA1)

/-- Modelled from the spec: the merge as claim C3 describes it — the
canonical state takes precedence on every overlapping fact, and a fact
present in only one state is kept. -/
def specMergeCanonicalPrecedence (cel legacy : MachineState) : MachineState :=
  { platform := match cel.platform with
      | some p => some p
      | none => legacy.platform
    secureBoot := match cel.secureBoot with
      | some s => some s
      | none => legacy.secureBoot
    hash := if cel.hash == 0 then legacy.hash else cel.hash
    rawEvents := cel.rawEvents ++ legacy.rawEvents }

/-! ## Helper lemmas -/

/-- The allocation performed by ParseTaggedEventData never exceeds the
length of the input buffer (the only bound the code enforces). -/
theorem parseTagged_alloc_le_length (d : List Nat) :
    (parseTaggedEventDataAlloc d).2 ≤ d.length := by
  rcases h1 : readU32LE d with _ | ⟨i, r1⟩
  · simp [parseTaggedEventDataAlloc, h1]
  · rcases h2 : readU32LE r1 with _ | ⟨n, r2⟩
    · simp [parseTaggedEventDataAlloc, h1, h2]
    · by_cases hb : d.length < n
      · simp [parseTaggedEventDataAlloc, h1, h2, hb]
      · by_cases ht : r2.length < n <;>
          simp [parseTaggedEventDataAlloc, h1, h2, hb, ht] <;> omega

/-- The chunk loop always issues at least one SequenceUpdate call. -/
theorem updateChunks_ne_nil (buf : List Nat) : updateChunks buf ≠ [] := by
  rw [updateChunks]
  split <;> simp

/-- On empty input the chunk loop issues exactly one SequenceUpdate
call, with an empty chunk. -/
theorem updateChunks_nil : updateChunks [] = [[]] := by
  rw [updateChunks]
  simp

/-- Feeding the pulled chunks into the sequence in order absorbs
exactly the original buffer. -/
theorem updateChunks_foldl (buf : List Nat) :
    ∀ acc, (updateChunks buf).foldl sequenceUpdate acc = acc ++ buf := by
  induction buf using updateChunks.induct with
  | case1 buf h =>
    intro acc
    rw [updateChunks, dif_pos h]
    have hlen : buf.length ≤ maxDigestBufferSize := by
      rw [List.isEmpty_iff, List.drop_eq_nil_iff] at h
      exact h
    simp [sequenceUpdate, List.take_of_length_le hlen]
  | case2 buf h ih =>
    intro acc
    rw [updateChunks, dif_neg h]
    rw [List.foldl_cons, ih]
    simp [sequenceUpdate, List.append_assoc, List.take_append_drop]

/-- Every pulled chunk has at most maxDigestBufferSize bytes. -/
theorem updateChunks_length_le (buf : List Nat) :
    ∀ c ∈ updateChunks buf, c.length ≤ maxDigestBufferSize := by
  induction buf using updateChunks.induct with
  | case1 buf h =>
    intro c hc
    rw [updateChunks, dif_pos h] at hc
    simp at hc
    subst hc
    exact List.length_take_le _ _
  | case2 buf h ih =>
    intro c hc
    rw [updateChunks, dif_neg h] at hc
    rcases List.mem_cons.mp hc with hc | hc
    · subst hc
      exact List.length_take_le _ _
    · exact ih c hc

/-- Every quote selected by supportedQuotes has a hash algorithm drawn
from the preference list it was selected for. -/
theorem mem_filterMap_first (qs : List Quote) (algs : List Algorithm) (q : Quote)
    (hq : q ∈ algs.filterMap (firstQuoteWithAlg qs)) : q.pcrs.hash ∈ algs := by
  induction algs with
  | nil => simp at hq
  | cons a rest ih =>
    rcases h : firstQuoteWithAlg qs a with _ | q0
    · simp only [List.filterMap_cons, h] at hq
      exact List.mem_cons_of_mem a (ih hq)
    · simp only [List.filterMap_cons, h] at hq
      rcases List.mem_cons.mp hq with hq | hq
      · subst hq
        have hfind := List.find?_some h
        have heq : q.pcrs.hash = a := by simpa using hfind
        simp [heq]
      · exact List.mem_cons_of_mem a (ih hq)

/-- Selecting at most the first quote per algorithm from a
duplicate-free preference list yields at most one quote per algorithm. -/
theorem filterMap_first_filter_len (qs : List Quote) (algs : List Algorithm)
    (b : Algorithm) (hnd : algs.Nodup) :
    ((algs.filterMap (firstQuoteWithAlg qs)).filter
      (fun q => q.pcrs.hash == b)).length ≤ 1 := by
  induction algs with
  | nil => simp
  | cons a rest ih =>
    have hnd' : rest.Nodup := (List.nodup_cons.mp hnd).2
    have hna : a ∉ rest := (List.nodup_cons.mp hnd).1
    rcases h : firstQuoteWithAlg qs a with _ | q0
    · simp only [List.filterMap_cons, h]
      exact ih hnd'
    · simp only [List.filterMap_cons, h]
      have hq0 : q0.pcrs.hash = a := by
        have hfind := List.find?_some h
        simpa using hfind
      by_cases hb : (q0.pcrs.hash == b) = true
      · have hab : a = b := by
          have hq0b : q0.pcrs.hash = b := by simpa using hb
          rw [← hq0, hq0b]
        simp only [List.filter_cons, hb, if_true]
        have hrest : (rest.filterMap (firstQuoteWithAlg qs)).filter
            (fun q => q.pcrs.hash == b) = [] := by
          rw [List.filter_eq_nil_iff]
          intro q hq hqb
          have hmem := mem_filterMap_first qs rest q hq
          have hqb' : q.pcrs.hash = b := by simpa using hqb
          rw [hqb', ← hab] at hmem
          exact hna hmem
        rw [hrest]
        simp
      · have hb' : (q0.pcrs.hash == b) = false := by
          simpa using hb
        simp only [List.filter_cons, hb', if_false]
        exact ih hnd'

/-- Failed attempts are skipped: the loop reaches the first successful
quote and returns its state, whatever error was previously recorded. -/
theorem quoteLoop_skip_failures (ext : Ext) (att : Attestation) (opts : VerifyOpts)
    (akKey : PublicKey) (qs1 : List Quote) (q : Quote) (qs2 : List Quote)
    (s : MachineState)
    (hfail : ∀ p, p ∈ qs1 → ∃ e, attemptQuote ext att opts akKey p = .error e)
    (hok : attemptQuote ext att opts akKey q = .ok s) :
    ∀ le, quoteLoop ext att opts akKey (qs1 ++ q :: qs2) le = .ok s := by
  induction qs1 with
  | nil =>
    intro le
    simp only [List.nil_append, quoteLoop, hok]
  | cons p rest ih =>
    intro le
    obtain ⟨e, he⟩ := hfail p (List.mem_cons_self p rest)
    simp only [List.cons_append, quoteLoop, he]
    exact ih (fun x hx => hfail x (List.mem_cons_of_mem _ hx)) (some e)

/-- When every attempt fails, the loop returns the error of the last
candidate. -/
theorem quoteLoop_all_fail (ext : Ext) (att : Attestation) (opts : VerifyOpts)
    (akKey : PublicKey) (qs : List Quote) (lastQ : Quote)
    (hfail : ∀ p, p ∈ qs → ∃ e, attemptQuote ext att opts akKey p = .error e)
    (hlast : qs.getLast? = some lastQ) :
    ∃ e, attemptQuote ext att opts akKey lastQ = .error e ∧
      ∀ le, quoteLoop ext att opts akKey qs le = .error e := by
  induction qs with
  | nil => simp at hlast
  | cons p rest ih =>
    obtain ⟨e, he⟩ := hfail p (List.mem_cons_self p rest)
    cases rest with
    | nil =>
      have hpq : p = lastQ := by simpa using hlast
      subst hpq
      refine ⟨e, he, fun le => ?_⟩
      simp only [quoteLoop, he]
    | cons p2 rest2 =>
      have hlast' : (p2 :: rest2).getLast? = some lastQ := by
        simpa [List.getLast?_cons_cons] using hlast
      obtain ⟨e2, he2, hloop⟩ :=
        ih (fun x hx => hfail x (List.mem_cons_of_mem _ hx)) hlast'
      refine ⟨e2, he2, fun le => ?_⟩
      simp only [quoteLoop, he]
      exact hloop (some e)

/-! ## Claim theorems -/

/-- C5: the claim states that UntrustedParseEventType succeeds exactly
on the known-value table within the documented ranges, and that an
out-of-range value such as 0x80000100 yields the distinct out-of-range
error while 0x13 yields the unknown-event-type error.  The code is
wrong: its range guard (et < 0x80000000 && et > 0x800000FF) ||
(et < 0x0 && et > 0x12) is unsatisfiable, so the out-of-range error is
unreachable and 0x80000100 falls through to the table lookup, yielding
the unknown-event-type error.  This theorem proves: (1) no input ever
produces the out-of-range error, (2) the failing input 0x80000100
produces the unknown-event-type error, (3) 0x13 produces the
unknown-event-type error, (4) parsing succeeds exactly on the
known-value table. -/
theorem untrustedParseEventType_range_check_dead :
    (∀ et e, UntrustedParseEventType et ≠ .error (.outOfRange e))
    ∧ UntrustedParseEventType 0x80000100 = .error (.unknown 0x80000100)
    ∧ UntrustedParseEventType 0x13 = .error (.unknown 0x13)
    ∧ (∀ et, UntrustedParseEventType et = .ok et ↔
        (eventTypeNames.lookup et).isSome = true) := by
  have hguard : ∀ et : Nat,
      ¬ ((et < 0x80000000 ∧ 0x800000FF < et) ∨ (et < 0x0 ∧ 0x12 < et)) := by
    intro et
    omega
  refine ⟨?_, rfl, rfl, ?_⟩
  · intro et e h
    unfold UntrustedParseEventType at h
    rw [if_neg (hguard et)] at h
    by_cases hl : (eventTypeNames.lookup et).isSome
    · rw [if_pos hl] at h
      exact Except.noConfusion h
    · rw [if_neg hl] at h
      simp at h
  · intro et
    unfold UntrustedParseEventType
    rw [if_neg (hguard et)]
    by_cases hl : (eventTypeNames.lookup et).isSome
    · simp [hl]
    · simp [hl]

/-- C5 witness: applying the characterization at the concrete value
0x12, which is in the known-value table and parses successfully. -/
theorem untrustedParseEventType_range_check_dead_witness :
    UntrustedParseEventType 0x12 = .ok 0x12 :=
  (untrustedParseEventType_range_check_dead.2.2.2 0x12).mpr (by decide)

/-- C6 counterexample: for the 12-byte input below, DataLen = 10
exceeds the bytes remaining after the 8-byte header (12 - 8 = 4), so
the claim demands rejection before allocation; the code instead
allocates the 10-byte Data buffer (the bounds check compares DataLen
against the whole input length 12) and fails only in the subsequent
read. -/
theorem parseTagged_remaining_bound_counterexample :
    (parseTaggedEventDataAlloc [0, 0, 0, 0, 10, 0, 0, 0, 1, 2, 3, 4]).2 = 10
    ∧ [(0 : Nat), 0, 0, 0, 10, 0, 0, 0, 1, 2, 3, 4].length - 8 < 10
    ∧ (parseTaggedEventDataAlloc [0, 0, 0, 0, 10, 0, 0, 0, 1, 2, 3, 4]).1 =
        .error .dataTruncated :=
  ⟨rfl, by norm_num, rfl⟩

/-- C6 amended: ParseTaggedEventData rejects a DataLen exceeding the
whole input length len(d) — not len(d) - 8 — before allocating; for a
DataLen within len(d) it allocates exactly DataLen bytes (failing
afterwards in the data read when fewer than DataLen bytes remain past
the header), so the allocation never exceeds len(d). -/
theorem parseTagged_total_length_bound (d : List Nat) :
    (parseTaggedEventDataAlloc d).2 ≤ d.length
    ∧ (∀ i r1 n r2, readU32LE d = some (i, r1) → readU32LE r1 = some (n, r2) →
        d.length < n →
        parseTaggedEventDataAlloc d = (.error (.oversized n d.length), 0))
    ∧ (∀ i r1 n r2, readU32LE d = some (i, r1) → readU32LE r1 = some (n, r2) →
        n ≤ d.length → (parseTaggedEventDataAlloc d).2 = n) := by
  refine ⟨parseTagged_alloc_le_length d, ?_, ?_⟩
  · intro i r1 n r2 h1 h2 hlt
    simp [parseTaggedEventDataAlloc, h1, h2, hlt]
  · intro i r1 n r2 h1 h2 hle
    have hb : ¬ d.length < n := by omega
    by_cases ht : r2.length < n <;>
      simp [parseTaggedEventDataAlloc, h1, h2, hb, ht]

/-- C6 witness: a 10-byte input whose header claims DataLen = 20 is
rejected with the oversized error and zero allocation. -/
theorem parseTagged_total_length_bound_witness :
    parseTaggedEventDataAlloc [0, 0, 0, 0, 20, 0, 0, 0, 1, 2] =
      (.error (.oversized 20 10), 0) :=
  (parseTagged_total_length_bound [0, 0, 0, 0, 20, 0, 0, 0, 1, 2]).2.1
    0 [20, 0, 0, 0, 1, 2] 20 [1, 2] rfl rfl (by norm_num)

/-- C7 counterexample input: an 8-byte header declaring
DataLen = 2^20 + 1 = 1048577, followed by that many payload bytes. -/
def bigTaggedInput : List Nat :=
  0 :: 0 :: 0 :: 0 :: 1 :: 0 :: 16 :: 0 :: List.replicate 1048577 0

/-- C7 counterexample: ParseTaggedEventData enforces no 1 MiB bound;
on bigTaggedInput it allocates a Data buffer of 1048577 bytes, strictly
more than maxBytesBufferSize = 1048576. -/
theorem parseTagged_no_mib_bound_counterexample :
    maxBytesBufferSize < (parseTaggedEventDataAlloc bigTaggedInput).2 := by
  have h1 : readU32LE bigTaggedInput =
      some (0, 1 :: 0 :: 16 :: 0 :: List.replicate 1048577 0) := rfl
  have h2 : readU32LE (1 :: 0 :: 16 :: 0 :: List.replicate 1048577 0) =
      some (1048577, List.replicate 1048577 0) := rfl
  have hlen : bigTaggedInput.length = 1048585 := by
    show (0 :: 0 :: 0 :: 0 :: 1 :: 0 :: 16 :: 0 ::
        List.replicate 1048577 0).length = 1048585
    rw [List.length_cons, List.length_cons, List.length_cons, List.length_cons,
        List.length_cons, List.length_cons, List.length_cons, List.length_cons,
        List.length_replicate]
  simp only [parseTaggedEventDataAlloc, h1, h2, hlen, List.length_replicate,
    maxBytesBufferSize]
  norm_num

/-- C7 amended: the allocation of ParseTaggedEventData is bounded by
the input length only; the maxBytesBufferSize bound therefore holds
exactly when the input itself is no larger than 1 MiB. -/
theorem parseTagged_alloc_bounded_by_input (d : List Nat) :
    (parseTaggedEventDataAlloc d).2 ≤ d.length
    ∧ (d.length ≤ maxBytesBufferSize →
        (parseTaggedEventDataAlloc d).2 ≤ maxBytesBufferSize) := by
  refine ⟨parseTagged_alloc_le_length d, fun h => ?_⟩
  exact le_trans (parseTagged_alloc_le_length d) h

/-- C7 witness: on a 12-byte input the allocation stays within the
1 MiB bound. -/
theorem parseTagged_alloc_bounded_by_input_witness :
    (parseTaggedEventDataAlloc [0, 0, 0, 0, 10, 0, 0, 0, 1, 2, 3, 4]).2 ≤
      maxBytesBufferSize :=
  (parseTagged_alloc_bounded_by_input [0, 0, 0, 0, 10, 0, 0, 0, 1, 2, 3, 4]).2
    (by norm_num [maxBytesBufferSize])

/-- C8: the digest of the local (no-device) path of Hash equals the
digest of HashWithSequencing with the TPM sequence modelled as an
incremental hash, for every hash function and every input; moreover
every chunk fed to SequenceUpdate has at most maxDigestBufferSize
bytes and the chunks absorbed in order are exactly the input
(chunk-size independence). -/
theorem hash_chunking_independence (H : List Nat → List Nat) (auth : String)
    (data : List Nat) :
    Hash H false false none data = (HashWithSequencing H auth data).1
    ∧ (∀ c, c ∈ (HashWithSequencing H auth data).2 →
        c.length ≤ maxDigestBufferSize)
    ∧ (HashWithSequencing H auth data).2.foldl sequenceUpdate hashSequenceStart
        = data := by
  refine ⟨?_, ?_, ?_⟩
  · show hashSum H (hashWrite hashNew data) = _
    simp [HashWithSequencing, hashSum, hashWrite, hashNew, sequenceComplete,
      hashSequenceStart, updateChunks_foldl]
  · intro c hc
    exact updateChunks_length_le data c hc
  · show (updateChunks data).foldl sequenceUpdate hashSequenceStart = data
    simp [hashSequenceStart, updateChunks_foldl]

/-- C8 witness: the two paths agree on a concrete hash function and a
concrete non-chunk-aligned input. -/
theorem hash_chunking_independence_witness :
    Hash (fun l => [l.length]) false false none [1, 2, 3] =
      (HashWithSequencing (fun l => [l.length]) "auth" [1, 2, 3]).1 :=
  (hash_chunking_independence (fun l => [l.length]) "auth" [1, 2, 3]).1

/-- C9: the list returned by supportedQuotes contains at most one quote
per hash algorithm, and every returned quote is the first quote in
input order bearing its algorithm. -/
theorem supportedQuotes_first_per_alg (qs : List Quote) :
    (∀ q, q ∈ supportedQuotes qs →
      qs.find? (fun p => p.pcrs.hash == q.pcrs.hash) = some q)
    ∧ (∀ a, ((supportedQuotes qs).filter
        (fun q => q.pcrs.hash == a)).length ≤ 1) := by
  constructor
  · intro q hq
    rcases List.mem_filterMap.mp hq with ⟨a, _, hfind⟩
    have heq : q.pcrs.hash = a := by
      have hfind' := List.find?_some hfind
      simpa using hfind'
    rw [heq]
    exact hfind
  · intro a
    exact filterMap_first_filter_len qs supportedHashAlgs a (by decide)

/-- C9 witness: with two SHA-256 quotes in the input, only the first is
retained, and it is the first input quote bearing SHA-256. -/
theorem supportedQuotes_first_per_alg_witness :
    List.find? (fun p => p.pcrs.hash ==
        (Quote.mk (PCRs.mk AlgSHA256 []) [] []).pcrs.hash)
      [Quote.mk (PCRs.mk AlgSHA256 []) [] [], Quote.mk (PCRs.mk AlgSHA256 [(7, [])]) [] []]
      = some (Quote.mk (PCRs.mk AlgSHA256 []) [] []) :=
  (supportedQuotes_first_per_alg
    [Quote.mk (PCRs.mk AlgSHA256 []) [] [], Quote.mk (PCRs.mk AlgSHA256 [(7, [])]) [] []]).1
    (Quote.mk (PCRs.mk AlgSHA256 []) [] []) (by decide)

/-- C10: the sequence-update loop of HashWithSequencing and
EventWithSequencing always issues at least one SequenceUpdate call; on
empty input it issues exactly one call carrying the empty chunk. -/
theorem sequence_update_runs_at_least_once (H : List Nat → List Nat)
    (banks : List (List Nat → List Nat)) (auth pcrAuth : String)
    (pcrHandle : Nat) (data : List Nat) :
    1 ≤ (HashWithSequencing H auth data).2.length
    ∧ 1 ≤ (EventWithSequencing banks auth pcrAuth pcrHandle data).2.length
    ∧ (HashWithSequencing H auth []).2 = [[]]
    ∧ (EventWithSequencing banks auth pcrAuth pcrHandle []).2 = [[]] := by
  have hne : 0 < (updateChunks data).length :=
    List.length_pos.mpr (updateChunks_ne_nil data)
  exact ⟨hne, hne, by simp [HashWithSequencing, updateChunks_nil],
    by simp [EventWithSequencing, updateChunks_nil]⟩

/-- C1: AK trust is established if and only if either some trusted key
equals the decoded AK under the RSA- or ECC-specific equality (keys of
any other dynamic type never compare equal), or the AK certificate is
non-empty, parses, and chain-verifies against the configured pools;
when both paths fail, VerifyAttestation returns the untrustedAK error
carrying the certificate-path failure (combined in the source with the
fixed text reporting the AK public key untrusted) without examining any
quote; when either path succeeds, verification proceeds to the
post-trust phase. -/
theorem verifyAttestation_ak_trust (ext : Ext) (att : Attestation)
    (opts : VerifyOpts) (area : PubArea) (akKey : PublicKey)
    (hdec : ext.decodePublic att.akPub = .ok area)
    (hkey : ext.pubAreaKey area = .ok akKey) :
    ((checkAkTrusted akKey opts = .ok ()) ↔
      ∃ k, k ∈ opts.trustedAKs ∧ pubKeysEqual akKey k = true)
    ∧ ((validateAkCert ext att.akCert opts.intermediateCerts opts.trustedRootCerts
        = .ok ()) ↔
      (att.akCert ≠ [] ∧ ∃ c, ext.parseCert att.akCert = .ok c ∧
        ext.certVerify c opts.trustedRootCerts opts.intermediateCerts = .ok ()))
    ∧ (∀ k i, pubKeysEqual k (.other i) = false)
    ∧ (∀ akErr certErr, checkAkTrusted akKey opts = .error akErr →
        validateAkCert ext att.akCert opts.intermediateCerts opts.trustedRootCerts
          = .error certErr →
        ∀ qs, verifyAttestation ext { att with quotes := qs } opts =
          .error (.untrustedAK certErr))
    ∧ ((checkAkTrusted akKey opts = .ok () ∨
        validateAkCert ext att.akCert opts.intermediateCerts opts.trustedRootCerts
          = .ok ()) →
        verifyAttestation ext att opts =
          verifyAttestationPost ext att opts area akKey) := by
  refine ⟨?_, ?_, ?_, ?_, ?_⟩
  · constructor
    · intro h
      by_cases he : opts.trustedAKs.isEmpty
      · simp [checkAkTrusted, he] at h
      · by_cases ha : opts.trustedAKs.any (fun t => pubKeysEqual akKey t)
        · obtain ⟨k, hk, hpk⟩ := List.any_eq_true.mp ha
          exact ⟨k, hk, hpk⟩
        · simp [checkAkTrusted, he, ha] at h
    · rintro ⟨k, hk, hpk⟩
      have ha : opts.trustedAKs.any (fun t => pubKeysEqual akKey t) = true :=
        List.any_eq_true.mpr ⟨k, hk, hpk⟩
      have he : opts.trustedAKs.isEmpty = false := by
        cases hl : opts.trustedAKs with
        | nil => rw [hl] at hk; simp at hk
        | cons a l => simp
      simp [checkAkTrusted, he, ha]
  · constructor
    · intro h
      by_cases he : att.akCert.isEmpty
      · simp [validateAkCert, he] at h
      · cases hp : ext.parseCert att.akCert with
        | error e => simp [validateAkCert, he, hp] at h
        | ok c =>
          cases hv : ext.certVerify c opts.trustedRootCerts opts.intermediateCerts with
          | error e => simp [validateAkCert, he, hp, hv] at h
          | ok u =>
            cases u
            exact ⟨by simpa [List.isEmpty_iff] using he, c, rfl, hv⟩
    · rintro ⟨hne, c, hp, hv⟩
      have he : att.akCert.isEmpty = false := by
        simpa [List.isEmpty_iff] using hne
      simp [validateAkCert, he, hp, hv]
  · intro k i
    cases k <;> rfl
  · intro akErr certErr hck hvc qs
    simp only [verifyAttestation]
    simp only [hdec, hkey, hck, hvc]
  · intro htrust
    rcases htrust with hck | hvc
    · simp only [verifyAttestation, hdec, hkey, hck]
    · cases hc : checkAkTrusted akKey opts with
      | ok u => simp only [verifyAttestation, hdec, hkey, hc]
      | error e => simp only [verifyAttestation, hdec, hkey, hc, hvc]

/-- C1 witness fixture: external functions where certificate parsing
fails. -/
def extC1 : Ext :=
  { decodePublic := fun _ => .ok 0
    pubAreaKey := fun _ => .ok (.rsa 5 3)
    getSigningHashAlg := fun _ => .ok AlgSHA256
    verifyQuote := fun _ _ _ => .ok ()
    parseCert := fun _ => .error "bad cert"
    certVerify := fun _ _ _ => .ok ()
    parsePCClientEventLog := fun _ _ => .ok (MachineState.mk none none 0 [])
    parseCanonicalEventLog := fun _ _ => .ok (MachineState.mk none none 0 []) }

/-- C1 witness fixture: an attestation with no quotes. -/
def attC1 : Attestation :=
  { akPub := [1], akCert := [2], quotes := [], eventLog := [],
    canonicalEventLog := [] }

/-- C1 witness fixture: options with no trusted AKs and no pools. -/
def optsC1 : VerifyOpts :=
  { nonce := [], trustedAKs := [], allowSHA1 := false,
    trustedRootCerts := none, intermediateCerts := none }

/-- C1 witness: with no trusted AKs and an unparsable certificate, both
trust paths fail and VerifyAttestation returns the combined untrustedAK
error. -/
theorem verifyAttestation_ak_trust_witness :
    verifyAttestation extC1 attC1 optsC1 =
      .error (.untrustedAK "failed to parse AKCert: bad cert") :=
  (verifyAttestation_ak_trust extC1 attC1 optsC1 0 (.rsa 5 3) rfl rfl).2.2.2.1
    "no mechanism for AK verification provided"
    "failed to parse AKCert: bad cert" rfl rfl []

/-- C4: in the per-quote loop, every per-quote failure is recorded and
the next candidate tried: an empty candidate list yields the generic
no-supported-quote error; the first successful quote after any prefix
of failures yields its state with no error; when every candidate fails
the error of the last candidate is returned; and under the pre-quote
hypotheses VerifyAttestation is exactly this loop over the supported
quotes. -/
theorem verifyAttestation_loop_recovery (ext : Ext) (att : Attestation)
    (opts : VerifyOpts) (akKey : PublicKey) (qs : List Quote) :
    quoteLoop ext att opts akKey [] none = .error .noSupportedQuote
    ∧ (∀ qs1 q qs2 s, qs = qs1 ++ q :: qs2 →
        (∀ p, p ∈ qs1 → ∃ e, attemptQuote ext att opts akKey p = .error e) →
        attemptQuote ext att opts akKey q = .ok s →
        quoteLoop ext att opts akKey qs none = .ok s)
    ∧ (∀ lastQ, (∀ p, p ∈ qs → ∃ e, attemptQuote ext att opts akKey p = .error e) →
        qs.getLast? = some lastQ →
        ∃ e, attemptQuote ext att opts akKey lastQ = .error e ∧
          quoteLoop ext att opts akKey qs none = .error e)
    ∧ (∀ area key alg, ext.decodePublic att.akPub = .ok area →
        ext.pubAreaKey area = .ok key →
        checkAkTrusted key opts = .ok () →
        ext.getSigningHashAlg area = .ok alg →
        checkHashAlgSupported alg opts = .ok () →
        verifyAttestation ext att opts =
          quoteLoop ext att opts key (supportedQuotes att.quotes) none) := by
  refine ⟨rfl, ?_, ?_, ?_⟩
  · intro qs1 q qs2 s hsplit hfail hok
    subst hsplit
    exact quoteLoop_skip_failures ext att opts akKey qs1 q qs2 s hfail hok none
  · intro lastQ hfail hlast
    obtain ⟨e, he, hloop⟩ :=
      quoteLoop_all_fail ext att opts akKey qs lastQ hfail hlast
    exact ⟨e, he, hloop none⟩
  · intro area key alg hdec hkey hck halg hsup
    simp only [verifyAttestation, hdec, hkey, hck, verifyAttestationPost, halg, hsup]

/-- C4 witness fixture: a quote whose signature fails to verify under
extC4 (empty rawSig). -/
def qBadC4 : Quote := { pcrs := { hash := AlgSHA512, pcrs := [] }, quote := [], rawSig := [] }

/-- C4 witness fixture: a quote whose signature verifies under extC4. -/
def qGoodC4 : Quote := { pcrs := { hash := AlgSHA256, pcrs := [] }, quote := [], rawSig := [1] }

/-- C4 witness fixture: quote verification fails exactly on an empty
rawSig; both event logs parse to fixed states. -/
def extC4 : Ext :=
  { decodePublic := fun _ => .ok 0
    pubAreaKey := fun _ => .ok (.rsa 5 3)
    getSigningHashAlg := fun _ => .ok AlgSHA256
    verifyQuote := fun q _ _ => if q.rawSig.isEmpty then .error "bad sig" else .ok ()
    parseCert := fun _ => .error "no cert"
    certVerify := fun _ _ _ => .error "no chain"
    parsePCClientEventLog := fun _ _ => .ok (MachineState.mk (some 1) none 0 [5])
    parseCanonicalEventLog := fun _ _ => .ok (MachineState.mk (some 2) (some 3) 0 [6]) }

/-- C4 witness fixture: attestation carrying the bad and the good
quote. -/
def attC4 : Attestation :=
  { akPub := [1], akCert := [], quotes := [qBadC4, qGoodC4], eventLog := [],
    canonicalEventLog := [] }

/-- C4 witness fixture: options trusting the RSA key directly. -/
def optsC4 : VerifyOpts :=
  { nonce := [], trustedAKs := [.rsa 5 3], allowSHA1 := false,
    trustedRootCerts := none, intermediateCerts := none }

/-- C4 witness: after the first candidate fails signature verification,
the loop returns the second candidate's merged state with no error. -/
theorem verifyAttestation_loop_recovery_witness :
    quoteLoop extC4 attC4 optsC4 (.rsa 5 3) [qBadC4, qGoodC4] none =
      .ok (MachineState.mk (some 1) (some 3) 0 [6, 5]) :=
  (verifyAttestation_loop_recovery extC4 attC4 optsC4 (.rsa 5 3)
      [qBadC4, qGoodC4]).2.1 [qBadC4] qGoodC4 []
    (MachineState.mk (some 1) (some 3) 0 [6, 5]) rfl
    (by
      intro p hp
      have hpq : p = qBadC4 := by simpa using hp
      subst hpq
      exact ⟨.quoteVerifyFailed "bad sig", rfl⟩ ) rfl

/-- C2 counterexample fixture: a SHA-1 quote. -/
def qSha1C2 : Quote := { pcrs := { hash := AlgSHA1, pcrs := [] }, quote := [], rawSig := [] }

/-- C2 counterexample fixture: external functions where signature
verification and both log replays succeed. -/
def extC2 : Ext :=
  { decodePublic := fun _ => .ok 0
    pubAreaKey := fun _ => .ok (.rsa 5 3)
    getSigningHashAlg := fun _ => .ok AlgSHA256
    verifyQuote := fun _ _ _ => .ok ()
    parseCert := fun _ => .error "no cert"
    certVerify := fun _ _ _ => .error "no chain"
    parsePCClientEventLog := fun _ _ => .ok (MachineState.mk none none 0 [])
    parseCanonicalEventLog := fun _ _ => .ok (MachineState.mk none none 0 []) }

/-- C2 counterexample fixture: attestation carrying only the SHA-1
quote. -/
def attC2 : Attestation :=
  { akPub := [1], akCert := [], quotes := [qSha1C2], eventLog := [],
    canonicalEventLog := [] }

/-- C2 counterexample fixture: options disallowing SHA-1 and trusting
the RSA key. -/
def optsC2 : VerifyOpts :=
  { nonce := [], trustedAKs := [.rsa 5 3], allowSHA1 := false,
    trustedRootCerts := none, intermediateCerts := none }

/-- C2 counterexample: with AllowSHA1 = false, the candidate sequence
the code iterates (supportedQuotes, which ignores the options) still
contains the SHA-1 quote, while the sequence the claim describes is
empty; and VerifyAttestation actually attempts the SHA-1 quote —
verifying its signature and replaying both logs — and reports the
SHA-1-specific error rather than the generic no-supported-quote error
the claimed empty candidate sequence would force. -/
theorem sha1_filtering_counterexample :
    supportedQuotes [qSha1C2] = [qSha1C2]
    ∧ claimedCandidates false [qSha1C2] = []
    ∧ verifyAttestation extC2 attC2 optsC2 = .error (.pcrHashAlg .sha1NotAllowed) :=
  ⟨rfl, rfl, rfl⟩

/-- C2 amended: supportedQuotes reorders the quotes by the fixed
preference without excluding SHA-1, so a SHA-1 quote is attempted even
with AllowSHA1 = false, but its attempt can never succeed (the hash
check at the end of the loop body rejects it); with one SHA-1 and one
SHA-256 quote the SHA-256 quote is attempted first, and the
SHA-1-specific error surfaces only if the SHA-256 attempt itself
failed. -/
theorem verifyAttestation_sha1_ordering (ext : Ext) (att : Attestation)
    (opts : VerifyOpts) (akKey : PublicKey) (q1 q256 : Quote)
    (h1 : q1.pcrs.hash = AlgSHA1) (h256 : q256.pcrs.hash = AlgSHA256)
    (hallow : opts.allowSHA1 = false) (hqs : att.quotes = [q1, q256]) :
    supportedQuotes att.quotes = [q256, q1]
    ∧ (∀ s, attemptQuote ext att opts akKey q256 = .ok s →
        quoteLoop ext att opts akKey (supportedQuotes att.quotes) none = .ok s)
    ∧ (∀ s, attemptQuote ext att opts akKey q1 ≠ .ok s)
    ∧ (quoteLoop ext att opts akKey (supportedQuotes att.quotes) none =
          .error (.pcrHashAlg .sha1NotAllowed) →
        ∃ e, attemptQuote ext att opts akKey q256 = .error e) := by
  have hsup : supportedQuotes att.quotes = [q256, q1] := by
    rw [hqs]
    simp [supportedQuotes, supportedHashAlgs, firstQuoteWithAlg, List.find?_cons,
      h1, h256, AlgSHA1, AlgSHA256, AlgSHA384, AlgSHA512, List.filterMap_cons]
  refine ⟨hsup, ?_, ?_, ?_⟩
  · intro s hok
    rw [hsup]
    simp only [quoteLoop, hok]
  · intro s h
    simp only [attemptQuote] at h
    cases hv : ext.verifyQuote q1 akKey opts.nonce with
    | error e =>
      simp only [hv] at h
      exact Except.noConfusion h
    | ok u =>
      cases u
      simp only [hv] at h
      cases hp : ext.parsePCClientEventLog att.eventLog q1.pcrs with
      | error e =>
        simp only [hp] at h
        exact Except.noConfusion h
      | ok st =>
        simp only [hp] at h
        cases hc : ext.parseCanonicalEventLog att.canonicalEventLog q1.pcrs with
        | error e =>
          simp only [hc] at h
          exact Except.noConfusion h
        | ok cel =>
          simp only [hc] at h
          have halg : checkHashAlgSupported q1.pcrs.hash opts =
              .error .sha1NotAllowed := by
            rw [h1]
            simp [checkHashAlgSupported, hallow, AlgSHA1]
          simp only [halg] at h
          exact Except.noConfusion h
  · intro hloop
    cases ha : attemptQuote ext att opts akKey q256 with
    | error e => exact ⟨e, rfl⟩
    | ok s =>
      rw [hsup] at hloop
      simp only [quoteLoop, ha] at hloop
      exact Except.noConfusion hloop

/-- C2 witness fixture: a SHA-256 quote accepted by extC2. -/
def q256W2 : Quote := { pcrs := { hash := AlgSHA256, pcrs := [] }, quote := [], rawSig := [1] }

/-- C2 witness fixture: attestation carrying the SHA-1 quote first and
the SHA-256 quote second. -/
def attW2 : Attestation :=
  { akPub := [1], akCert := [], quotes := [qSha1C2, q256W2], eventLog := [],
    canonicalEventLog := [] }

/-- C2 witness: with a SHA-1 quote listed before a SHA-256 quote and
AllowSHA1 = false, the candidate order puts the SHA-256 quote first. -/
theorem verifyAttestation_sha1_ordering_witness :
    supportedQuotes attW2.quotes = [q256W2, qSha1C2] :=
  (verifyAttestation_sha1_ordering extC2 attW2 optsC2 (.rsa 5 3) qSha1C2 q256W2
    rfl rfl rfl rfl).1

/-- C3 counterexample fixture: the canonical state, with the platform
fact populated as 2. -/
def celC3 : MachineState := { platform := some 2, secureBoot := none, hash := 0, rawEvents := [7] }

/-- C3 counterexample fixture: the legacy PCClient state, with the
platform fact populated as 1. -/
def stC3 : MachineState := { platform := some 1, secureBoot := some 4, hash := 0, rawEvents := [9] }

/-- C3 counterexample fixture: a SHA-256 quote. -/
def qC3 : Quote := { pcrs := { hash := AlgSHA256, pcrs := [] }, quote := [], rawSig := [1] }

/-- C3 counterexample fixture: external functions where the legacy log
replays to stC3 and the canonical log to celC3. -/
def extC3 : Ext :=
  { decodePublic := fun _ => .ok 0
    pubAreaKey := fun _ => .ok (.rsa 5 3)
    getSigningHashAlg := fun _ => .ok AlgSHA256
    verifyQuote := fun _ _ _ => .ok ()
    parseCert := fun _ => .error "no cert"
    certVerify := fun _ _ _ => .error "no chain"
    parsePCClientEventLog := fun _ _ => .ok stC3
    parseCanonicalEventLog := fun _ _ => .ok celC3 }

/-- C3 counterexample fixture: attestation with the SHA-256 quote. -/
def attC3 : Attestation :=
  { akPub := [1], akCert := [], quotes := [qC3], eventLog := [],
    canonicalEventLog := [] }

/-- C3 counterexample fixture: options trusting the RSA key. -/
def optsC3 : VerifyOpts :=
  { nonce := [], trustedAKs := [.rsa 5 3], allowSHA1 := false,
    trustedRootCerts := none, intermediateCerts := none }

/-- C3 counterexample: on a successful quote VerifyAttestation returns
proto.Merge(celState, state), in which the legacy state's populated
platform fact (1) overwrites the canonical one (2); the claimed
canonical-precedence merge would keep 2, so the returned state differs
from it. -/
theorem merge_precedence_counterexample :
    verifyAttestation extC3 attC3 optsC3 = .ok (protoMerge celC3 stC3)
    ∧ (protoMerge celC3 stC3).platform = some 1
    ∧ (specMergeCanonicalPrecedence celC3 stC3).platform = some 2
    ∧ verifyAttestation extC3 attC3 optsC3 ≠
        .ok (specMergeCanonicalPrecedence celC3 stC3) :=
  ⟨rfl, rfl, rfl, by
    intro h
    have h2 : (Except.ok (protoMerge celC3 stC3) : Except VError MachineState) =
        .ok (specMergeCanonicalPrecedence celC3 stC3) := by
      rw [← h]
      rfl
    have h3 := congrArg MachineState.platform (Except.ok.inj h2)
    simp [protoMerge, specMergeCanonicalPrecedence, celC3, stC3] at h3⟩

/-- C3 amended: on a fully successful quote the attempt returns
proto.Merge(celState, state), whose semantics are: repeated raw events
of both states are concatenated (nothing dropped); a singular fact
populated in the legacy state takes precedence, one populated only in
the canonical state is preserved; the scalar hash field is overwritten
exactly when non-zero in the legacy state. -/
theorem attemptQuote_merge_semantics (ext : Ext) (att : Attestation)
    (opts : VerifyOpts) (akKey : PublicKey) (quote : Quote)
    (cel st : MachineState)
    (hv : ext.verifyQuote quote akKey opts.nonce = .ok ())
    (hp : ext.parsePCClientEventLog att.eventLog quote.pcrs = .ok st)
    (hc : ext.parseCanonicalEventLog att.canonicalEventLog quote.pcrs = .ok cel)
    (halg : checkHashAlgSupported quote.pcrs.hash opts = .ok ()) :
    attemptQuote ext att opts akKey quote = .ok (protoMerge cel st)
    ∧ (protoMerge cel st).rawEvents = cel.rawEvents ++ st.rawEvents
    ∧ (∀ p, st.platform = some p → (protoMerge cel st).platform = some p)
    ∧ (st.platform = none → (protoMerge cel st).platform = cel.platform)
    ∧ (∀ sb, st.secureBoot = some sb → (protoMerge cel st).secureBoot = some sb)
    ∧ (st.secureBoot = none → (protoMerge cel st).secureBoot = cel.secureBoot)
    ∧ (st.hash = 0 → (protoMerge cel st).hash = cel.hash)
    ∧ (st.hash ≠ 0 → (protoMerge cel st).hash = st.hash) := by
  refine ⟨?_, rfl, ?_, ?_, ?_, ?_, ?_, ?_⟩
  · simp only [attemptQuote, hv, hp, hc, halg]
  · intro p hsp
    simp [protoMerge, hsp]
  · intro hsp
    simp [protoMerge, hsp]
  · intro sb hsb
    simp [protoMerge, hsb]
  · intro hsb
    simp [protoMerge, hsb]
  · intro hz
    simp [protoMerge, hz]
  · intro hz
    have : (st.hash == 0) = false := by
      simpa using hz
    simp [protoMerge, this]

/-- C3 witness: the amended merge semantics applied at the concrete
counterexample fixture. -/
theorem attemptQuote_merge_semantics_witness :
    attemptQuote extC3 attC3 optsC3 (.rsa 5 3) qC3 = .ok (protoMerge celC3 stC3) :=
  (attemptQuote_merge_semantics extC3 attC3 optsC3 (.rsa 5 3) qC3 celC3 stC3
    rfl rfl rfl rfl).1

end GoTpmTools
